import Mathlib

/-!
Shallow embedding of `src/agent.py`: a LangGraph agent/action loop that
wires a chat model (selected by backend name, memoized with an LRU cache
of size 4) to a single web-search tool, prepends a fixed system prompt
before every model call, and loops between an agent node and an action
node until the model produces a reply with no tool calls.

Modelling choices:
- A message is a role, a content string and a list of tool-call requests
  (the `tool_calls` attribute inspected by `should_continue`).
- The `lru_cache` decorator on `_get_model` is made explicit: the cache
  is a list of (name, client) pairs, most recently used first; a call
  threads the cache state.  Calls that raise are not cached, matching
  the Python decorator.
- Model invocation and tool execution are network calls; they are
  parameters (`inv`, `tool`) of the orchestration, so every theorem
  quantifies over the external behavior.
- Graph node identifiers are an enumerated type; the source registers
  nodes under the string names "agent" and "action" and the END
  sentinel, which map one-to-one onto the constructors.
-/

/-- A tool-call request attached to an assistant message: action name,
structured arguments (kept abstract as a string) and a call id. -/
structure ToolCall where
  name : String
  args : String
  id : String
deriving DecidableEq

/-- One conversation message: role tag, body text and the list of
tool-call requests it carries. -/
structure Message where
  role : String
  content : String
  tool_calls : List ToolCall
deriving DecidableEq

/-- The single bound tool, `TavilySearchResults(max_results=1)`. -/
structure Tool where
  name : String
  max_results : Nat
deriving DecidableEq

/-- A constructed chat client: which provider class was instantiated,
the requested hosted model, the sampling temperature and the bound
tools. -/
structure ModelClient where
  provider : String
  model_name : String
  temperature : Int
  tools : List Tool
deriving DecidableEq

/-- Errors the glue code can raise: `ValueError` from `_get_model` on an
unsupported backend, `IndexError` from `messages[-1]` on an empty state,
and an unknown branch label in the conditional-edge mapping. -/
inductive AgentError where
  | valueError (msg : String)
  | indexError
  | unknownBranch (label : String)
deriving DecidableEq

/-- Source line 11: `tools = [TavilySearchResults(max_results=1)]`. -/
def tools : List Tool :=
  [{ name := "tavily_search_results_json", max_results := 1 }]

/-- Binding the toolset onto a freshly constructed client,
`model.bind_tools(tools)`. -/
def bind_tools (m : ModelClient) : List Tool → ModelClient :=
  fun ts => { m with tools := ts }

/-- The body of `_get_model` (source lines 14 to 23), before the
`lru_cache` decorator is applied: dispatch on the backend name,
construct the client with temperature zero, bind the tools, or raise
`ValueError` on anything outside the two supported names. -/
def _get_model_body (model_name : String) : Except AgentError ModelClient :=
  if model_name = "openai" then
    .ok (bind_tools { provider := "ChatOpenAI", model_name := "gpt-4o",
                      temperature := 0, tools := [] } tools)
  else if model_name = "anthropic" then
    .ok (bind_tools { provider := "ChatAnthropic",
                      model_name := "claude-3-sonnet-20240229",
                      temperature := 0, tools := [] } tools)
  else
    .error (.valueError ("Unsupported model type: " ++ model_name))

/-- Association lookup on string keys, first match wins. -/
def assocLookup {α : Type} : List (String × α) → String → Option α
  | [], _ => none
  | (k, v) :: rest, key => if key = k then some v else assocLookup rest key

/-- Maximum number of memoized clients, from `lru_cache(maxsize=4)`. -/
def cacheMaxsize : Nat := 4

/-- The memoized `_get_model` (source line 13): cache state is explicit,
most recently used entry first.  On a hit the cached client is returned
and moved to the front; on a miss the body runs, a raised error leaves
the cache untouched, and a constructed client is inserted with the least
recently used entry evicted beyond `cacheMaxsize`. -/
def _get_model (cache : List (String × ModelClient)) (model_name : String) :
    Except AgentError ModelClient × List (String × ModelClient) :=
  match assocLookup cache model_name with
  | some m => (.ok m, (model_name, m) :: cache.filter (fun p => p.1 != model_name))
  | none =>
    match _get_model_body model_name with
    | .error e => (.error e, cache)
    | .ok m => (.ok m, ((model_name, m) :: cache).take cacheMaxsize)

/-- Cache state after a sequence of `_get_model` calls in one process,
starting from the empty cache. -/
def cacheAfter (names : List String) : List (String × ModelClient) :=
  names.foldl (fun c n => (_get_model c n).2) []

/-- The conversation state: an ordered message sequence merged with
`add_messages` (append semantics). -/
structure AgentState where
  messages : List Message
deriving DecidableEq

/-- `should_continue` (source lines 31 to 39): inspect the last message;
with no tool calls return "end", otherwise return "continue".  On an
empty state `messages[-1]` raises `IndexError`. -/
def should_continue (state : AgentState) : Except AgentError String :=
  match state.messages.getLast? with
  | none => .error .indexError
  | some last_message =>
    if last_message.tool_calls = [] then .ok "end" else .ok "continue"

/-- The fixed system prompt prepended before every model call
(source lines 42 to 79). -/
def system_prompt : String :=
  "
Act like an expert in software system design. You have 20 years of experience in teaching and mentoring users on how to design and implement robust, scalable, and efficient software systems. You have deep knowledge of various design patterns, architectural principles, and best practices in the industry.

Objective: Help users understand and learn software system design comprehensively. This includes explaining key concepts, answering specific questions, providing practical examples, and guiding them through complex problems step-by-step.

Steps:

Introduction to Software System Design:

Explain the fundamental concepts of software system design.
Discuss the importance of designing robust and scalable systems.
Introduce key design patterns and architectural principles.
Key Concepts and Principles:

Detail the core principles of software design (e.g., SOLID principles, modularity, abstraction).
Explain different types of design patterns (e.g., creational, structural, behavioral) with examples.
Describe architectural styles (e.g., monolithic, microservices, event-driven) and their use cases.
Practical Examples and Case Studies:

Provide real-world examples of software system designs.
Discuss successful case studies and analyze their design choices.
Include diagrams and code snippets where necessary.
Interactive Learning:

Answer specific questions users may have about software system design.
Solve complex design problems step-by-step.
Offer exercises and challenges for users to practice their skills.
Advanced Topics:

Cover advanced design topics such as scalability, performance optimization, and security considerations.
Discuss modern trends in software system design, such as cloud-native architectures and containerization.
Review and Feedback:

Encourage users to review and critique existing designs.
Provide constructive feedback on their design attempts.
Offer resources for further learning and improvement.
Take a deep breath and work on this problem step-by-step.
"

/-- The system message built inline at source line 84. -/
def systemMessage : Message :=
  { role := "system", content := system_prompt, tool_calls := [] }

/-- Prompt assembly, the inline list construction at source line 84:
prepend the fixed system message to the running conversation. -/
def assemblePrompt (messages : List Message) : List Message :=
  systemMessage :: messages

/-- The configurable section of a run configuration; `model_name` may be
absent. -/
structure Configurable where
  model_name : Option String
deriving DecidableEq

/-- A run configuration; the configurable section itself may be absent,
matching the lookup of the configurable key with an empty-dict default
at source line 85. -/
structure RunConfig where
  configurable : Option Configurable
deriving DecidableEq

/-- Source line 85: read the configurable section with an empty default,
then read the model name under the key "model_name" with the default
"anthropic". -/
def modelNameOf (config : RunConfig) : String :=
  ((config.configurable.getD { model_name := none }).model_name).getD "anthropic"

/-- `call_model` (source lines 82 to 89): assemble the prompt, select
the model per the run configuration, invoke it on the augmented
sequence, and return the one-element message delta that `add_messages`
will append to the state.  `inv` is the external model behavior. -/
def call_model (inv : ModelClient → List Message → Message)
    (messages : List Message) (config : RunConfig) :
    Except AgentError (List Message) :=
  match _get_model_body (modelNameOf config) with
  | .error e => .error e
  | .ok model => .ok [inv model (assemblePrompt messages)]

/-- `ToolNode(tools)` behavior (source line 93): execute every tool-call
request of the last message in order, producing one tool-result message
per request.  `tool` is the external tool behavior. -/
def toolNodeRun (tool : ToolCall → Message) (messages : List Message) :
    List Message :=
  match messages.getLast? with
  | none => []
  | some last_message => last_message.tool_calls.map tool

/-- Graph node identifiers: the two registered nodes "agent" and
"action" (source lines 104 and 105) and the END sentinel. -/
inductive NodeName where
  | agent
  | action
  | END
deriving DecidableEq

/-- Source line 109: `workflow.set_entry_point("agent")`. -/
def entry_point : NodeName := .agent

/-- The conditional-edge mapping of source lines 124 to 129:
"continue" routes to the action node, "end" routes to END. -/
def conditional_edge_mapping : List (String × NodeName) :=
  [("continue", .action), ("end", .END)]

/-- The sole normal edge, source line 134:
`workflow.add_edge("action", "agent")`. -/
def normal_edges : List (NodeName × NodeName) :=
  [(.action, .agent)]

/-- Routing after the agent node (source lines 112 to 130): evaluate
`should_continue` on the updated state and match its output against the
conditional-edge mapping. -/
def routeAfterAgent (messages : List Message) : Except AgentError NodeName :=
  match should_continue { messages := messages } with
  | .error e => .error e
  | .ok label =>
    match assocLookup conditional_edge_mapping label with
    | some n => .ok n
    | none => .error (.unknownBranch label)

/-- One transition of the compiled graph, for fixed external model
behavior `inv`, tool behavior `tool`, and run configuration `cfg`.  An
agent step appends the model delta and routes via the conditional edge;
an action step appends the tool results and follows the normal edge
back to the agent node. -/
inductive GraphStep (inv : ModelClient → List Message → Message)
    (tool : ToolCall → Message) (cfg : RunConfig) :
    NodeName × List Message → NodeName × List Message → Prop where
  | agent (messages delta : List Message) (next : NodeName)
      (hcall : call_model inv messages cfg = .ok delta)
      (hroute : routeAfterAgent (messages ++ delta) = .ok next) :
      GraphStep inv tool cfg (.agent, messages) (next, messages ++ delta)
  | action (messages : List Message) :
      GraphStep inv tool cfg (.action, messages)
        (.agent, messages ++ toolNodeRun tool messages)

/-- A complete run: from a position the graph reaches END with the given
final message sequence. -/
inductive ExecTo (inv : ModelClient → List Message → Message)
    (tool : ToolCall → Message) (cfg : RunConfig) :
    NodeName × List Message → List Message → Prop where
  | done (messages : List Message) : ExecTo inv tool cfg (.END, messages) messages
  | step (p q : NodeName × List Message) (out : List Message)
      (h : GraphStep inv tool cfg p q) (hrest : ExecTo inv tool cfg q out) :
      ExecTo inv tool cfg p out

/-! Theorems. -/

/-- C1: on a conversation state whose last message is an assistant
message, `should_continue` returns "end" exactly when that message
carries zero tool-call requests, returns "continue" exactly when it
carries one or more, and never returns any other value. -/
theorem c1_should_continue_dichotomy (st : AgentState) (last : Message)
    (hlast : st.messages.getLast? = some last)
    (hrole : last.role = "assistant") :
    (should_continue st = .ok "end" ↔ last.tool_calls = []) ∧
    (should_continue st = .ok "continue" ↔ last.tool_calls ≠ []) ∧
    (∀ r, should_continue st = .ok r → r = "end" ∨ r = "continue") := by
  unfold should_continue
  rw [hlast]
  by_cases htc : last.tool_calls = [] <;> simp [htc]

/-- Witness for C1 at a concrete one-message state. -/
theorem c1_witness :
    (should_continue { messages := [{ role := "assistant", content := "hi", tool_calls := [] }] } = .ok "end" ↔
      ({ role := "assistant", content := "hi", tool_calls := [] } : Message).tool_calls = []) ∧
    (should_continue { messages := [{ role := "assistant", content := "hi", tool_calls := [] }] } = .ok "continue" ↔
      ({ role := "assistant", content := "hi", tool_calls := [] } : Message).tool_calls ≠ []) ∧
    (∀ r, should_continue { messages := [{ role := "assistant", content := "hi", tool_calls := [] }] } = .ok r →
      r = "end" ∨ r = "continue") :=
  c1_should_continue_dichotomy
    { messages := [{ role := "assistant", content := "hi", tool_calls := [] }] }
    { role := "assistant", content := "hi", tool_calls := [] } rfl rfl

/-- C6: invoked on the empty conversation state, `should_continue` does
not return "continue" or "end": the `messages[-1]` access fails fast
with the index error. -/
theorem c6_empty_state_fails :
    should_continue { messages := [] } = .error .indexError := rfl

/-- C8: for both supported backend names the constructed client has
temperature zero and is bound to exactly the one web-search tool capped
at one returned result. -/
theorem c8_client_configuration :
    _get_model_body "anthropic" =
      .ok { provider := "ChatAnthropic", model_name := "claude-3-sonnet-20240229",
            temperature := 0,
            tools := [{ name := "tavily_search_results_json", max_results := 1 }] } ∧
    _get_model_body "openai" =
      .ok { provider := "ChatOpenAI", model_name := "gpt-4o",
            temperature := 0,
            tools := [{ name := "tavily_search_results_json", max_results := 1 }] } ∧
    tools = [{ name := "tavily_search_results_json", max_results := 1 }] ∧
    tools.length = 1 :=
  ⟨rfl, rfl, rfl, rfl⟩

/-- C10: a run configuration with no configurable section, or one whose
configurable section omits `model_name`, silently defaults to the
"anthropic" backend, and `call_model` succeeds rather than failing. -/
theorem c10_missing_model_name_defaults :
    modelNameOf { configurable := none } = "anthropic" ∧
    modelNameOf { configurable := some { model_name := none } } = "anthropic" ∧
    ∀ (inv : ModelClient → List Message → Message) (messages : List Message),
      ∃ delta, call_model inv messages { configurable := none } = .ok delta :=
  ⟨rfl, rfl, fun _ _ => ⟨_, rfl⟩⟩

/-! Cache lemmas for the memoized model selector. -/

theorem assocLookup_some_mem {α : Type} {c : List (String × α)} {n : String}
    {m : α} (h : assocLookup c n = some m) : (n, m) ∈ c := by
  induction c with
  | nil => simp [assocLookup] at h
  | cons p rest ih =>
    obtain ⟨k, v⟩ := p
    by_cases hk : n = k
    · subst hk
      simp [assocLookup] at h
      simp [h]
    · simp [assocLookup, hk] at h
      exact List.mem_cons_of_mem _ (ih h)

theorem length_filter_lt_of_lookup {α : Type} {c : List (String × α)}
    {n : String} {m : α} (h : assocLookup c n = some m) :
    (c.filter (fun p => p.1 != n)).length < c.length := by
  induction c with
  | nil => simp [assocLookup] at h
  | cons p rest ih =>
    obtain ⟨k, v⟩ := p
    by_cases hk : n = k
    · subst hk
      have hle := List.length_filter_le (fun p => p.1 != n) rest
      simp [List.filter_cons]
      omega
    · have hkeep : (k != n) = true := by
        simp only [bne_iff_ne, ne_eq]
        exact fun hh => hk hh.symm
      simp [assocLookup, hk] at h
      have := ih h
      simp [List.filter_cons, hkeep]
      omega

theorem _get_model_cache_length {cache : List (String × ModelClient)}
    {name : String} (h : cache.length ≤ cacheMaxsize) :
    ((_get_model cache name).2).length ≤ cacheMaxsize := by
  unfold _get_model
  cases hl : assocLookup cache name with
  | some m =>
    have := length_filter_lt_of_lookup hl
    simp
    omega
  | none =>
    cases hb : _get_model_body name with
    | error e => simpa using h
    | ok m =>
      simp [List.length_take]

theorem cacheAfter_length_le (names : List String) :
    (cacheAfter names).length ≤ cacheMaxsize := by
  unfold cacheAfter
  have h : ∀ c : List (String × ModelClient), c.length ≤ cacheMaxsize →
      (names.foldl (fun c n => (_get_model c n).2) c).length ≤ cacheMaxsize := by
    induction names with
    | nil => intro c hc; simpa using hc
    | cons n rest ih =>
      intro c hc
      exact ih _ (_get_model_cache_length hc)
  exact h [] (by simp [cacheMaxsize])

theorem _get_model_body_ok_backend {n : String} {m : ModelClient}
    (h : _get_model_body n = .ok m) : n = "anthropic" ∨ n = "openai" := by
  unfold _get_model_body at h
  by_cases h1 : n = "openai"
  · exact Or.inr h1
  · by_cases h2 : n = "anthropic"
    · exact Or.inl h2
    · rw [if_neg h1, if_neg h2] at h
      cases h

/-- Every key of a reachable cache names a supported backend. -/
def supportedKeys (c : List (String × ModelClient)) : Prop :=
  ∀ p ∈ c, p.1 = "anthropic" ∨ p.1 = "openai"

theorem _get_model_supportedKeys {c : List (String × ModelClient)} {n : String}
    (h : supportedKeys c) : supportedKeys ((_get_model c n).2) := by
  unfold _get_model
  cases hl : assocLookup c n with
  | some m =>
    intro p hp
    rcases List.mem_cons.mp hp with rfl | hp'
    · exact h _ (assocLookup_some_mem hl)
    · exact h _ (List.mem_of_mem_filter hp')
  | none =>
    cases hb : _get_model_body n with
    | error e => exact h
    | ok m =>
      intro p hp
      have hp' : p ∈ (n, m) :: c := List.take_subset _ _ hp
      rcases List.mem_cons.mp hp' with rfl | hp''
      · exact _get_model_body_ok_backend hb
      · exact h _ hp''

theorem cacheAfter_supportedKeys (names : List String) :
    supportedKeys (cacheAfter names) := by
  unfold cacheAfter
  have h : ∀ c : List (String × ModelClient), supportedKeys c →
      supportedKeys (names.foldl (fun c n => (_get_model c n).2) c) := by
    induction names with
    | nil => intro c hc; simpa using hc
    | cons n rest ih =>
      intro c hc
      exact ih _ (_get_model_supportedKeys hc)
  exact h [] (by intro p hp; cases hp)

theorem assocLookup_none_of_supported {c : List (String × ModelClient)}
    {n : String} (h : supportedKeys c) (h1 : n ≠ "anthropic")
    (h2 : n ≠ "openai") : assocLookup c n = none := by
  induction c with
  | nil => rfl
  | cons p rest ih =>
    obtain ⟨k, v⟩ := p
    have hk := h (k, v) (List.mem_cons_self _ _)
    have hne : n ≠ k := by
      intro hkn
      subst hkn
      rcases hk with h' | h'
      · exact h1 h'
      · exact h2 h'
    simp [assocLookup, hne]
    exact ih (fun p hp => h p (List.mem_cons_of_mem _ hp))

theorem assocLookup_take_cons {α : Type} (k : Nat) (hk : 0 < k) (n : String)
    (m : α) (c : List (String × α)) :
    assocLookup (((n, m) :: c).take k) n = some m := by
  cases k with
  | zero => exact absurd hk (lt_irrefl 0)
  | succ j => simp [List.take_succ_cons, assocLookup]

theorem _get_model_hit {c : List (String × ModelClient)} {n : String}
    {m : ModelClient} (h : assocLookup c n = some m) :
    _get_model c n = (.ok m, (n, m) :: c.filter (fun p => p.1 != n)) := by
  unfold _get_model
  rw [h]

theorem _get_model_miss_ok {c : List (String × ModelClient)} {n : String}
    {m : ModelClient} (h1 : assocLookup c n = none)
    (h2 : _get_model_body n = .ok m) :
    _get_model c n = (.ok m, ((n, m) :: c).take cacheMaxsize) := by
  unfold _get_model
  rw [h1, h2]

/-- C2: every backend name outside the supported pair makes the model
selector raise the unsupported-backend configuration error; no client is
constructed and every reachable cache state is left untouched. -/
theorem c2_unsupported_backend (name : String)
    (h1 : name ≠ "anthropic") (h2 : name ≠ "openai") :
    _get_model_body name = .error (.valueError ("Unsupported model type: " ++ name)) ∧
    ∀ names : List String,
      _get_model (cacheAfter names) name =
        (.error (.valueError ("Unsupported model type: " ++ name)), cacheAfter names) := by
  have hbody : _get_model_body name =
      .error (.valueError ("Unsupported model type: " ++ name)) := by
    unfold _get_model_body
    rw [if_neg h2, if_neg h1]
  refine ⟨hbody, fun names => ?_⟩
  have hnone := assocLookup_none_of_supported (cacheAfter_supportedKeys names) h1 h2
  unfold _get_model
  rw [hnone, hbody]

/-- Witness for C2 at the concrete backend name "gemini" after one
prior successful selection. -/
theorem c2_witness :
    _get_model (cacheAfter ["anthropic"]) "gemini" =
      (.error (.valueError ("Unsupported model type: " ++ "gemini")),
       cacheAfter ["anthropic"]) :=
  (c2_unsupported_backend "gemini" (by decide) (by decide)).2 ["anthropic"]

/-- C5: repeated selection of a supported backend is a cache hit
returning the memoized client, and the cache never exceeds the
configured maximum of 4 entries. -/
theorem c5_memoized_and_bounded :
    (∀ (cache : List (String × ModelClient)) (name : String),
      name = "anthropic" ∨ name = "openai" →
      ∃ m, (_get_model cache name).1 = .ok m ∧
        (_get_model (_get_model cache name).2 name).1 = .ok m ∧
        assocLookup (_get_model cache name).2 name = some m) ∧
    (∀ names : List String, (cacheAfter names).length ≤ cacheMaxsize) := by
  constructor
  · intro cache name hname
    cases hl : assocLookup cache name with
    | some v =>
      have he := _get_model_hit hl
      have hfst : (_get_model cache name).1 = .ok v := by rw [he]
      have hsnd : (_get_model cache name).2 =
          (name, v) :: cache.filter (fun p => p.1 != name) := by rw [he]
      have hcons : assocLookup ((name, v) :: cache.filter (fun p => p.1 != name)) name = some v := by
        simp [assocLookup]
      refine ⟨v, hfst, ?_, ?_⟩
      · rw [hsnd, _get_model_hit hcons]
      · rw [hsnd]
        exact hcons
    | none =>
      have hbody : ∃ m, _get_model_body name = .ok m := by
        rcases hname with rfl | rfl
        · exact ⟨_, rfl⟩
        · exact ⟨_, rfl⟩
      obtain ⟨m, hb⟩ := hbody
      have he := _get_model_miss_ok hl hb
      have hfst : (_get_model cache name).1 = .ok m := by rw [he]
      have hsnd : (_get_model cache name).2 = ((name, m) :: cache).take cacheMaxsize := by
        rw [he]
      have htake : assocLookup (((name, m) :: cache).take cacheMaxsize) name = some m :=
        assocLookup_take_cons cacheMaxsize (by decide) name m cache
      refine ⟨m, hfst, ?_, ?_⟩
      · rw [hsnd, _get_model_hit htake]
      · rw [hsnd]
        exact htake
  · exact cacheAfter_length_le

/-- Witness for C5: after selecting "openai" and a failing "gemini",
two successive selections of "anthropic" agree, and a concrete call
history keeps the cache within bound. -/
theorem c5_witness :
    (_get_model (_get_model (cacheAfter ["openai", "gemini"]) "anthropic").2 "anthropic").1 =
      (_get_model (cacheAfter ["openai", "gemini"]) "anthropic").1 ∧
    (cacheAfter ["openai", "gemini", "anthropic"]).length ≤ cacheMaxsize := by
  obtain ⟨m, h1, h2, h3⟩ :=
    c5_memoized_and_bounded.1 (cacheAfter ["openai", "gemini"]) "anthropic" (Or.inl rfl)
  exact ⟨h2.trans h1.symm, c5_memoized_and_bounded.2 ["openai", "gemini", "anthropic"]⟩

/-! Concrete fixtures used by witnesses. -/

def userHello : Message :=
  { role := "user", content := "Say hello.", tool_calls := [] }

def assistantFinal : Message :=
  { role := "assistant", content := "Hello.", tool_calls := [] }

def assistantCall : Message :=
  { role := "assistant", content := "",
    tool_calls := [{ name := "tavily_search_results_json",
                     args := "weather in Boston", id := "call1" }] }

def toolResult : Message :=
  { role := "tool", content := "one search result", tool_calls := [] }

/-- A model behavior that always produces the final assistant reply. -/
def invFinal : ModelClient → List Message → Message := fun _ _ => assistantFinal

/-- A tool behavior that always produces the same tool-result message. -/
def toolEcho : ToolCall → Message := fun _ => toolResult

/-- C3: prompt assembly prepends exactly one fixed system message to the
unchanged prior messages, and the delta persisted back to the state by
`call_model` is only the model reply: the system message is never
persisted. -/
theorem c3_prompt_assembly :
    (∀ messages : List Message, assemblePrompt messages = [systemMessage] ++ messages) ∧
    (∀ (inv : ModelClient → List Message → Message) (messages : List Message)
        (cfg : RunConfig) (delta : List Message),
      call_model inv messages cfg = .ok delta →
      ∃ model, _get_model_body (modelNameOf cfg) = .ok model ∧
        delta = [inv model (assemblePrompt messages)] ∧
        ((∀ m ms, (inv m ms).role = "assistant") → systemMessage ∉ delta)) := by
  refine ⟨fun messages => rfl, ?_⟩
  intro inv messages cfg delta hcall
  unfold call_model at hcall
  cases hb : _get_model_body (modelNameOf cfg) with
  | error e =>
    rw [hb] at hcall
    cases hcall
  | ok model =>
    rw [hb] at hcall
    have hd : delta = [inv model (assemblePrompt messages)] := (Except.ok.inj hcall).symm
    refine ⟨model, rfl, hd, ?_⟩
    intro hrole hmem
    rw [hd] at hmem
    have heq : systemMessage = inv model (assemblePrompt messages) := by
      simpa using hmem
    have h1 : systemMessage.role = "assistant" := by
      rw [heq]
      exact hrole _ _
    exact absurd h1 (by decide)

/-- Witness for C3 on a one-message conversation with a tool-free model
reply. -/
theorem c3_witness :
    assemblePrompt [userHello] = [systemMessage] ++ [userHello] ∧
    systemMessage ∉ [assistantFinal] := by
  obtain ⟨model, hm, hd, hnp⟩ :=
    c3_prompt_assembly.2 invFinal [userHello] { configurable := none } [assistantFinal] rfl
  exact ⟨c3_prompt_assembly.1 [userHello], hnp (fun _ _ => rfl)⟩

/-! Routing lemmas for the conditional edge out of the agent node. -/

theorem should_continue_ok_cases {st : AgentState} {r : String}
    (h : should_continue st = .ok r) : r = "end" ∨ r = "continue" := by
  unfold should_continue at h
  split at h
  · exact Except.noConfusion h
  · split at h
    · exact Or.inl (Except.ok.inj h).symm
    · exact Or.inr (Except.ok.inj h).symm

theorem routeAfterAgent_eq_action_iff (messages : List Message) :
    routeAfterAgent messages = .ok NodeName.action ↔
      should_continue { messages := messages } = .ok "continue" := by
  unfold routeAfterAgent
  cases hsc : should_continue { messages := messages } with
  | error e => simp
  | ok r =>
    rcases should_continue_ok_cases hsc with rfl | rfl
    · simp [conditional_edge_mapping, assocLookup]
    · simp [conditional_edge_mapping, assocLookup]

theorem routeAfterAgent_eq_END_iff (messages : List Message) :
    routeAfterAgent messages = .ok NodeName.END ↔
      should_continue { messages := messages } = .ok "end" := by
  unfold routeAfterAgent
  cases hsc : should_continue { messages := messages } with
  | error e => simp
  | ok r =>
    rcases should_continue_ok_cases hsc with rfl | rfl
    · simp [conditional_edge_mapping, assocLookup]
    · simp [conditional_edge_mapping, assocLookup]

theorem routeAfterAgent_ok_cases {messages : List Message} {n : NodeName}
    (h : routeAfterAgent messages = .ok n) :
    n = NodeName.action ∨ n = NodeName.END := by
  unfold routeAfterAgent at h
  cases hsc : should_continue { messages := messages } with
  | error e =>
    rw [hsc] at h
    cases h
  | ok r =>
    rw [hsc] at h
    rcases should_continue_ok_cases hsc with rfl | rfl
    · simp [conditional_edge_mapping, assocLookup] at h
      exact Or.inr h.symm
    · simp [conditional_edge_mapping, assocLookup] at h
      exact Or.inl h.symm

/-- C4: the orchestration is the agent/action/END machine: the entry
point is the agent node; after an agent step the run goes to the action
node exactly when the predicate says "continue" and to END exactly when
it says "end"; an action step goes unconditionally back to the agent
node with the tool results appended; and no transition leaves any other
node shape. -/
theorem c4_state_machine :
    entry_point = NodeName.agent ∧
    (∀ messages : List Message,
      routeAfterAgent messages = .ok NodeName.action ↔
        should_continue { messages := messages } = .ok "continue") ∧
    (∀ messages : List Message,
      routeAfterAgent messages = .ok NodeName.END ↔
        should_continue { messages := messages } = .ok "end") ∧
    (∀ (messages : List Message) (n : NodeName),
      routeAfterAgent messages = .ok n → n = NodeName.action ∨ n = NodeName.END) ∧
    (∀ (inv : ModelClient → List Message → Message) (tool : ToolCall → Message)
        (cfg : RunConfig) (p q : NodeName × List Message),
      GraphStep inv tool cfg p q → p.1 = NodeName.agent ∨ p.1 = NodeName.action) ∧
    (∀ (inv : ModelClient → List Message → Message) (tool : ToolCall → Message)
        (cfg : RunConfig) (messages : List Message) (q : NodeName × List Message),
      GraphStep inv tool cfg (NodeName.action, messages) q →
        q = (NodeName.agent, messages ++ toolNodeRun tool messages)) ∧
    (∀ (inv : ModelClient → List Message → Message) (tool : ToolCall → Message)
        (cfg : RunConfig) (messages : List Message) (q : NodeName × List Message),
      GraphStep inv tool cfg (NodeName.agent, messages) q →
        routeAfterAgent q.2 = .ok q.1) := by
  refine ⟨rfl, routeAfterAgent_eq_action_iff, routeAfterAgent_eq_END_iff,
    fun _ _ => routeAfterAgent_ok_cases, ?_, ?_, ?_⟩
  · intro inv tool cfg p q h
    cases h with
    | agent messages delta next hcall hroute => exact Or.inl rfl
    | action messages => exact Or.inr rfl
  · intro inv tool cfg messages q h
    cases h with
    | action _ => rfl
  · intro inv tool cfg messages q h
    cases h with
    | agent _ delta next hcall hroute => exact hroute

/-- Witness for C4: a concrete agent step on a one-message state whose
model reply has no tool calls routes to END. -/
theorem c4_witness :
    routeAfterAgent ((NodeName.END, [userHello] ++ [assistantFinal]) :
        NodeName × List Message).2 =
      .ok ((NodeName.END, [userHello] ++ [assistantFinal]) :
        NodeName × List Message).1 :=
  c4_state_machine.2.2.2.2.2.2 invFinal toolEcho { configurable := none }
    [userHello] (NodeName.END, [userHello] ++ [assistantFinal])
    (GraphStep.agent [userHello] [assistantFinal] NodeName.END rfl rfl)

/-- C7: an agent step contributes exactly one new assistant message,
and every graph step only appends: the prior message sequence is left
in place as a prefix of the new one. -/
theorem c7_append_only :
    (∀ (inv : ModelClient → List Message → Message) (messages : List Message)
        (cfg : RunConfig) (delta : List Message),
      call_model inv messages cfg = .ok delta →
      delta.length = 1 ∧
      ((∀ m ms, (inv m ms).role = "assistant") →
        ∀ resp ∈ delta, resp.role = "assistant")) ∧
    (∀ (inv : ModelClient → List Message → Message) (tool : ToolCall → Message)
        (cfg : RunConfig) (p q : NodeName × List Message),
      GraphStep inv tool cfg p q → q.2.take p.2.length = p.2) := by
  constructor
  · intro inv messages cfg delta hcall
    unfold call_model at hcall
    cases hb : _get_model_body (modelNameOf cfg) with
    | error e =>
      rw [hb] at hcall
      cases hcall
    | ok model =>
      rw [hb] at hcall
      have hd : delta = [inv model (assemblePrompt messages)] := (Except.ok.inj hcall).symm
      subst hd
      refine ⟨rfl, ?_⟩
      intro hrole resp hresp
      have : resp = inv model (assemblePrompt messages) := by simpa using hresp
      rw [this]
      exact hrole _ _
  · intro inv tool cfg p q h
    cases h with
    | agent messages delta next hcall hroute =>
      exact List.take_left messages delta
    | action messages =>
      exact List.take_left messages (toolNodeRun tool messages)

/-- Witness for C7 on a concrete agent step and a concrete tool-free
model reply. -/
theorem c7_witness :
    ([assistantFinal] : List Message).length = 1 ∧
    ([userHello] ++ [assistantFinal]).take ([userHello] : List Message).length = [userHello] := by
  refine ⟨(c7_append_only.1 invFinal [userHello] { configurable := none } [assistantFinal] rfl).1, ?_⟩
  exact c7_append_only.2 invFinal toolEcho { configurable := none }
    (NodeName.agent, [userHello]) (NodeName.END, [userHello] ++ [assistantFinal])
    (GraphStep.agent [userHello] [assistantFinal] NodeName.END rfl rfl)

/-! Determinism of the orchestration. -/

theorem graphStep_deterministic {inv : ModelClient → List Message → Message}
    {tool : ToolCall → Message} {cfg : RunConfig}
    {p q₁ q₂ : NodeName × List Message}
    (h1 : GraphStep inv tool cfg p q₁) (h2 : GraphStep inv tool cfg p q₂) :
    q₁ = q₂ := by
  cases h1 with
  | agent messages delta next hcall hroute =>
    cases h2 with
    | agent messages2 delta2 next2 hcall2 hroute2 =>
      have hd : delta = delta2 := Except.ok.inj (hcall.symm.trans hcall2)
      subst hd
      have hn : next = next2 := Except.ok.inj (hroute.symm.trans hroute2)
      subst hn
      rfl
  | action messages =>
    cases h2 with
    | action _ => rfl

theorem graphStep_no_step_from_END {inv : ModelClient → List Message → Message}
    {tool : ToolCall → Message} {cfg : RunConfig} {messages : List Message}
    {q : NodeName × List Message}
    (h : GraphStep inv tool cfg (NodeName.END, messages) q) : False := by
  cases h

/-- C9: a run of the compiled graph is deterministic: from the same
position, with the same run configuration and the same external model
and tool behavior, any two complete executions produce the same final
message sequence. -/
theorem c9_run_deterministic (inv : ModelClient → List Message → Message)
    (tool : ToolCall → Message) (cfg : RunConfig)
    (p : NodeName × List Message) (out₁ out₂ : List Message)
    (h1 : ExecTo inv tool cfg p out₁) (h2 : ExecTo inv tool cfg p out₂) :
    out₁ = out₂ := by
  revert h2
  induction h1 with
  | done messages =>
    intro h2
    cases h2 with
    | done _ => rfl
    | step p q out h hrest => exact (graphStep_no_step_from_END h).elim
  | step p q out h hrest ih =>
    intro h2
    cases h2 with
    | done m =>
      exact (graphStep_no_step_from_END h).elim
    | step p2 q2 out2 hs2 hrest2 =>
      have hq : q = q2 := graphStep_deterministic h hs2
      subst hq
      exact ih hrest2

/-- Witness for C9: the concrete one-agent-step run from the user
message, written two definitionally different ways, has equal output. -/
theorem c9_witness :
    [userHello, assistantFinal] = [userHello] ++ [assistantFinal] := by
  have hrun : ExecTo invFinal toolEcho { configurable := none }
      (NodeName.agent, [userHello]) ([userHello] ++ [assistantFinal]) :=
    ExecTo.step _ _ _
      (GraphStep.agent [userHello] [assistantFinal] NodeName.END rfl rfl)
      (ExecTo.done ([userHello] ++ [assistantFinal]))
  have hrun' : ExecTo invFinal toolEcho { configurable := none }
      (NodeName.agent, [userHello]) [userHello, assistantFinal] := hrun
  exact c9_run_deterministic invFinal toolEcho { configurable := none }
    (NodeName.agent, [userHello]) [userHello, assistantFinal]
    ([userHello] ++ [assistantFinal]) hrun' hrun
